import Mathlib

/-!
Verification of the field-inference and normalization pipeline of
`src/app.py` (toothpaste market analysis dashboard).

Embedding conventions:
* Python floats are modelled as exact fractions.  Because the kernel
  cannot evaluate `ℚ`'s normalizing arithmetic, pipeline values are
  carried as unnormalized numerator/denominator pairs (`Frac`, pure
  `Int`/`Nat` arithmetic, fully computable); `toQ` interprets a `Frac`
  as the rational it denotes, and theorem statements speak in `ℚ`
  through `toQ`.  `np.nan` (missing) is `Option.none`.
* Cell values (`pd.Series` entries) are modelled by `Cell`:
  `missing` (NaN/None), `num` (a Python number, represented by the
  sign/integer-digits/fraction-digits of its plain decimal `str()`
  rendering; exponent-notation renderings are covered by `Cell.str` of
  the rendered text), and `str` (a string cell).
* `re.findall(r"\d+(?:\.\d+)?", s)` is modelled by a left-to-right
  tokenizing scan (`scanAux`) returning the integer-digit and
  fraction-digit runs of each match, in order.
* `re.search` patterns used by the code (`extract_pack`,
  `extract_size_str`) are modelled by position-by-position scans that
  mirror the regex engine's leftmost-match, alternation-order and
  greedy-run semantics; `\b` is modelled over ASCII word characters and
  `\s` by `Char.isWhitespace` (the inputs exercised here are ASCII).
* Python's `float()` builtin is modelled by `pyFloat` on the grammar
  `[sign] digits [. digits] [(e|E) [sign] digits]`; the `inf`/`nan`
  literals and digit underscores are outside the rational embedding.
-/

set_option maxRecDepth 8000

/-- An exact, not necessarily reduced fraction `num / den`.  Every
fraction built by the pipeline has a positive denominator (products of
`10 ^ k`, `2`, `100` and positive pack counts). -/
structure Frac where
  num : ℤ
  den : ℕ

deriving instance DecidableEq, Repr for Frac

/-- The rational value a `Frac` denotes. -/
def toQ (f : Frac) : ℚ := (f.num : ℚ) / (f.den : ℚ)

/-- Exact addition of fractions (cross multiplication). -/
def Frac.add (a b : Frac) : Frac := ⟨a.num * b.den + b.num * a.den, a.den * b.den⟩

/-- Exact subtraction of fractions. -/
def Frac.sub (a b : Frac) : Frac := ⟨a.num * b.den - b.num * a.den, a.den * b.den⟩

/-- Exact multiplication of fractions. -/
def Frac.mul (a b : Frac) : Frac := ⟨a.num * b.num, a.den * b.den⟩

/-- Division of a fraction by a natural number (used only with a
positive divisor, mirroring the code's `/2`, `/100`, `/pack`). -/
def Frac.divN (f : Frac) (k : ℕ) : Frac := ⟨f.num, f.den * k⟩

/-- Negation of a fraction. -/
def Frac.negF (f : Frac) : Frac := ⟨-f.num, f.den⟩

/-- Multiplication by a (possibly negative) power of ten, for float
exponents. -/
def Frac.mulPow10 (f : Frac) (e : ℤ) : Frac :=
  if 0 ≤ e then ⟨f.num * 10 ^ e.toNat, f.den⟩ else ⟨f.num, f.den * 10 ^ (-e).toNat⟩

/-- Strict comparison of fractions by cross multiplication (valid for
the positive denominators the pipeline produces). -/
def Frac.ltB (a b : Frac) : Bool := decide (a.num * (b.den : ℤ) < b.num * (a.den : ℤ))

/-- Non-strict comparison of fractions by cross multiplication. -/
def Frac.leB (a b : Frac) : Bool := decide (a.num * (b.den : ℤ) ≤ b.num * (a.den : ℤ))

/-- Characters removed by `clean_numeric` before parsing
(`s.replace("$","").replace("¥","").replace(",","").replace(" ","").replace("￥","")`,
app.py line 36). -/
def stripSet : List Char := ['$', '¥', ',', ' ', '￥']

/-- Predicate for characters kept by the stripping step. -/
def keepChar (c : Char) : Bool := !(stripSet.contains c)

/-- Value of a run of ASCII digit characters, most significant first. -/
def natOfDigits (l : List Char) : ℕ := l.foldl (fun a c => 10 * a + (c.toNat - 48)) 0

/-- Boolean prefix test on character lists. -/
def isPrefixL : List Char → List Char → Bool
  | [], _ => true
  | _ :: _, [] => false
  | a :: as, b :: bs => a == b && isPrefixL as bs

/-- Boolean contiguous-substring test (Python's `needle in hay`). -/
def containsSeq (needle : List Char) : List Char → Bool
  | [] => needle.isEmpty
  | c :: t => isPrefixL needle (c :: t) || containsSeq needle t

/-- State of the numeric-substring scanner modelling
`re.findall(r"\d+(?:\.\d+)?", s)`: outside a number, inside the integer
digits, or inside the fraction digits (accumulators are reversed). -/
inductive ScanSt
  | idle
  | intPart (acc : List Char)
  | fracPart (ipart : List Char) (acc : List Char)

/-- Emit the token (if any) pending in the scanner state at end of input. -/
def scanFlush : ScanSt → List (List Char × List Char)
  | .idle => []
  | .intPart acc => [(acc.reverse, [])]
  | .fracPart ip acc => [(ip, acc.reverse)]

/-- Left-to-right scan producing the matches of `\d+(?:\.\d+)?` as
(integer digits, fraction digits) pairs.  A `.` continues a number only
when immediately followed by a digit, exactly as the regex requires at
least one digit after the dot. -/
def scanAux : ScanSt → List Char → List (List Char × List Char)
  | st, [] => scanFlush st
  | .idle, c :: cs => if c.isDigit then scanAux (.intPart [c]) cs else scanAux .idle cs
  | .intPart acc, c :: cs =>
      if c.isDigit then scanAux (.intPart (c :: acc)) cs
      else if c = '.' then
        match cs with
        | d :: _ => if d.isDigit then scanAux (.fracPart acc.reverse []) cs
                    else (acc.reverse, []) :: scanAux .idle cs
        | [] => [(acc.reverse, [])]
      else (acc.reverse, []) :: scanAux .idle cs
  | .fracPart ip acc, c :: cs =>
      if c.isDigit then scanAux (.fracPart ip (c :: acc)) cs
      else (ip, acc.reverse) :: scanAux .idle cs

/-- The numeric substrings of `s` per `re.findall(r"\d+(?:\.\d+)?", s)`
(app.py line 44), as (integer digits, fraction digits) pairs in order. -/
def extractTokens (l : List Char) : List (List Char × List Char) := scanAux .idle l

/-- The value of one extracted numeric substring (what `float(nums[i])`
yields on a match of `\d+(?:\.\d+)?`): integer part plus fraction. -/
def tokVal (t : List Char × List Char) : Frac :=
  ⟨(10 : ℤ) ^ t.2.length * natOfDigits t.1 + natOfDigits t.2, 10 ^ t.2.length⟩

/-- Read an optional leading sign, as Python's `float()` does. -/
def readSign : List Char → Bool × List Char
  | '-' :: r => (true, r)
  | '+' :: r => (false, r)
  | l => (false, l)

/-- Exponent suffix of a Python float literal: `[sign] digits`. -/
def pyExp (v : Frac) (l : List Char) : Option Frac :=
  let p := readSign l
  let ed := p.2.takeWhile Char.isDigit
  let r2 := p.2.dropWhile Char.isDigit
  if ed = [] ∨ r2 ≠ [] then none
  else some (v.mulPow10 (if p.1 then -(natOfDigits ed : ℤ) else (natOfDigits ed : ℤ)))

/-- Python's `float()` builtin on the grammar
`[sign] (digits [. digits] | . digits) [(e|E) [sign] digits]`; anything
else (including the `inf`/`nan` literals, which have no rational value)
is a `ValueError`, modelled as `none`. -/
def pyFloat (l : List Char) : Option Frac :=
  let p := readSign l
  let ip := p.2.takeWhile Char.isDigit
  let r1 := p.2.dropWhile Char.isDigit
  let fr :=
    match r1 with
    | '.' :: rd => (rd.takeWhile Char.isDigit, rd.dropWhile Char.isDigit)
    | _ => ([], r1)
  if ip = [] ∧ fr.1 = [] then none
  else
    let base := tokVal (ip, fr.1)
    let signed := if p.1 then base.negF else base
    match fr.2 with
    | [] => some signed
    | 'e' :: re => pyExp signed re
    | 'E' :: re => pyExp signed re
    | _ => none

/-- Core of `clean_numeric` (app.py lines 36-58), applied to the trimmed
string form of the cell: strip currency/thousands/space characters, take
the percent branch if `%` is present, otherwise extract numeric
substrings; with at least two numbers and a `-` or `to` range indicator
the result is the mean of the first two, else the first number. -/
def cleanNumericL (l : List Char) : Option Frac :=
  let s := l.filter keepChar
  if '%' ∈ s then (pyFloat (s.filter (fun c => !(c == '%')))).map (fun f => f.divN 100)
  else
    match extractTokens s with
    | [] => none
    | [t] => some (tokVal t)
    | t1 :: t2 :: _ =>
        if ('-' ∈ s) ∨ (containsSeq ['t', 'o'] (s.map Char.toLower) = true) then
          some ((tokVal t1).add (tokVal t2) |>.divN 2)
        else some (tokVal t1)

/-- The empty/`"nan"`/`"null"` guard of `clean_numeric`
(app.py lines 32-34) followed by the parsing core. -/
def cleanStageL (l : List Char) : Option Frac :=
  if l = [] ∨ l.map Char.toLower = "nan".toList ∨ l.map Char.toLower = "null".toList then none
  else cleanNumericL l

/-- Python `str.strip()` on a character list. -/
def trimChars (l : List Char) : List Char :=
  ((l.dropWhile Char.isWhitespace).reverse.dropWhile Char.isWhitespace).reverse

/-- The trimmed character form of a string cell (`str(val).strip()`). -/
def strForm (s : String) : List Char := trimChars s.toList

/-- The stripped form on which `clean_numeric`'s `%`/range checks run. -/
def strippedForm (s : String) : List Char := (strForm s).filter keepChar

/-- The ASCII digit character for a digit value. -/
def digitChar (d : Fin 10) : Char := Char.ofNat (48 + d.val)

/-- A cell value: missing (NaN/None), a Python number given by the
sign/integer-digits/fraction-digits of its plain decimal `str()`
rendering, or a string. -/
inductive Cell
  | missing
  | num (neg : Bool) (ip fp : List (Fin 10))
  | str (s : String)

deriving instance DecidableEq for Cell

/-- The `str()` rendering of a plain-decimal Python number. -/
def renderNum (neg : Bool) (ip fp : List (Fin 10)) : List Char :=
  (if neg then ['-'] else []) ++ ip.map digitChar ++
    (if fp = [] then [] else '.' :: fp.map digitChar)

/-- Value of a digit list, most significant first. -/
def natValF (l : List (Fin 10)) : ℕ := l.foldl (fun a d => 10 * a + d.val) 0

/-- The numeric value a `Cell.num` stands for. -/
def numValue (neg : Bool) (ip fp : List (Fin 10)) : ℚ :=
  (if neg then -1 else 1) * ((natValF ip : ℚ) + (natValF fp : ℚ) / 10 ^ fp.length)

/-- Python `str(val)` of a cell (`astype(str)` semantics: NaN renders
as `"nan"`). -/
def pyStr : Cell → String
  | .missing => "nan"
  | .num neg ip fp => String.mk (renderNum neg ip fp)
  | .str s => s

/-- `clean_numeric` (app.py lines 24-58): missing input is NaN
(`pd.isna`), otherwise the cell's string form is trimmed, guarded
against empty/`nan`/`null`, and parsed. -/
def cleanNumeric : Cell → Option Frac
  | .missing => none
  | .num neg ip fp => cleanStageL (renderNum neg ip fp)
  | .str s => cleanStageL (strForm s)

/-- A cell whose (trimmed) string form carries no `%` character, so the
percent branch of `clean_numeric` cannot fire on it. -/
def pctFree : Cell → Bool
  | .str s => !(decide ('%' ∈ strForm s))
  | _ => true

example : cleanNumeric (Cell.str "10-20") = some ⟨30, 2⟩ := by decide
example : cleanNumeric (Cell.str "$12.99 (save $2)") = some ⟨1299, 100⟩ := by decide
example : cleanNumeric (Cell.str "US$ 12.99/count") = some ⟨1299, 100⟩ := by decide
example : cleanNumeric (Cell.str "") = none := by decide
example : cleanNumeric (Cell.str "abc") = none := by decide
example : cleanNumeric (Cell.str "-5") = some ⟨5, 1⟩ := by decide
example : cleanNumeric (Cell.str "50%") = some ⟨50, 100⟩ := by decide
example : cleanNumeric (Cell.str "-50%") = some ⟨-50, 100⟩ := by decide
example : cleanNumeric (Cell.str "10-20%") = none := by decide
example : cleanNumeric (Cell.num true [5] []) = some ⟨5, 1⟩ := by decide
example : cleanStageL ("1e-07".toList) = some ⟨8, 2⟩ := by decide
example : (cleanNumeric (Cell.str "10-20")).map toQ = some 15 := by
  have h : cleanNumeric (Cell.str "10-20") = some ⟨30, 2⟩ := by decide
  rw [h]; simp [toQ]; norm_num

/-- Normalized column/keyword name: `str(col).lower().replace(" ", "")`
(app.py line 102). -/
def normName (s : String) : List Char := (s.toList.map Char.toLower).filter (fun c => !(c == ' '))

/-- `find_col` (app.py lines 99-106): return the first column whose
normalized name contains some keyword's normalized form as a substring,
else `None`. -/
def findCol (columns : List String) (keywords : List String) : Option String :=
  columns.find? (fun col => keywords.any (fun kw => containsSeq (normName kw) (normName col)))

/-- Keywords for the `title` field (app.py line 160). -/
def titleKeywords : List String := ["title", "标题", "name", "商品名"]

/-- Keywords for the `brand` field (app.py line 161). -/
def brandKeywords : List String := ["brand", "品牌", "manufacturer", "maker"]

/-- Keywords for the `price` field (app.py line 162). -/
def priceKeywords : List String := ["price", "价格", "售价", "均价", "currentprice", "buybox"]

/-- Keywords for the `sales` field (app.py line 163). -/
def salesKeywords : List String := ["sales", "销量", "sold", "units", "orders"]

/-- Keywords for the `revenue` field (app.py line 164). -/
def revenueKeywords : List String := ["revenue", "销售额", "amount", "gmv"]

/-- Keywords for the `rating` field (app.py line 165). -/
def ratingKeywords : List String := ["rating", "评分", "stars", "avg rating", "average rating"]

/-- Keywords for the `reviews` field (app.py line 166). -/
def reviewsKeywords : List String := ["reviews", "评论数", "评价数", "ratings count", "review count", "评分数"]

/-- ASCII word character, for the regex `\b` word boundary. -/
def isWordCharB (c : Char) : Bool := c.isAlphanum || c == '_'

/-- `\b` immediately after a just-matched word character: the next char
must not be a word character (or the input must end). -/
def boundaryAfter : List Char → Bool
  | [] => true
  | c :: _ => !(isWordCharB c)

/-- Match a literal, returning the rest on success. -/
def stripLit : List Char → List Char → Option (List Char)
  | [], l => some l
  | _ :: _, [] => none
  | a :: as, b :: bs => if a = b then stripLit as bs else none

/-- Consume `\s*` (maximal, which is exact here since every literal or
digit that follows is not whitespace). -/
def dropWs (l : List Char) : List Char := l.dropWhile Char.isWhitespace

/-- Branch `pack\s*of\s*\d+` of `extract_pack`'s pattern (app.py line
290); yields the digit run (= `re.findall(r"\d+", m.group(0))[0]`). -/
def packBranchOf (l : List Char) : Option (List Char) :=
  match stripLit ['p', 'a', 'c', 'k'] l with
  | none => none
  | some r1 =>
    match stripLit ['o', 'f'] (dropWs r1) with
    | none => none
    | some r2 =>
      let ds := (dropWs r2).takeWhile Char.isDigit
      if ds = [] then none else some ds

/-- Branches `\d+\s*pack\b` and `\d+\s*count\b` of `extract_pack`'s
pattern, parameterized by the literal. -/
def packBranchNum (lit : List Char) (l : List Char) : Option (List Char) :=
  let ds := l.takeWhile Char.isDigit
  if ds = [] then none
  else
    match stripLit lit (dropWs (l.dropWhile Char.isDigit)) with
    | none => none
    | some r2 => if boundaryAfter r2 then some ds else none

/-- Branch `\bx\s*\d+` of `extract_pack`'s pattern; `prev` is the
character before the current position (for the leading `\b`). -/
def packBranchX (prev : Option Char) (l : List Char) : Option (List Char) :=
  let bOk := match prev with | none => true | some c => !(isWordCharB c)
  if bOk then
    match stripLit ['x'] l with
    | none => none
    | some r1 =>
      let ds := (dropWs r1).takeWhile Char.isDigit
      if ds = [] then none else some ds
  else none

/-- One attempt of `extract_pack`'s alternation at the current position,
in the pattern's alternative order. -/
def packAttempt (prev : Option Char) (l : List Char) : Option (List Char) :=
  (packBranchOf l).orElse (fun _ =>
    (packBranchNum ['p', 'a', 'c', 'k'] l).orElse (fun _ =>
      (packBranchNum ['c', 'o', 'u', 'n', 't'] l).orElse (fun _ =>
        packBranchX prev l)))

/-- Leftmost-match scan for `extract_pack`'s `re.search`. -/
def packScan (prev : Option Char) : List Char → Option (List Char)
  | [] => none
  | c :: cs =>
    match packAttempt prev (c :: cs) with
    | some ds => some ds
    | none => packScan (some c) cs

/-- `extract_pack` (app.py lines 288-294): search the lowercased title
for `pack of N` / `N pack` / `N count` / `xN`; the first digit run of
the match is the pack count, defaulting to 1. -/
def extractPack (title : String) : ℕ :=
  match packScan none (title.toList.map Char.toLower) with
  | some ds => natOfDigits ds
  | none => 1

example : extractPack "Toothpaste Pack of 3" = 3 := by decide
example : extractPack "3 Pack Whitening" = 3 := by decide
example : extractPack "Toothpaste x2" = 2 := by decide
example : extractPack "Single Tube" = 1 := by decide
example : extractPack "pack of 0 promo" = 0 := by decide

/-- Unit alternatives of `extract_size_str`'s pattern
`(\d+(?:\.\d+)?)\s*(oz|ounce|ounces|g|gram|grams|ml|l)\b`
(app.py line 313), in alternation order. -/
def unitTable : List String := ["oz", "ounce", "ounces", "g", "gram", "grams", "ml", "l"]

/-- Try one unit alternative at the current position: literal match
followed by a `\b` word boundary. -/
def unitAt (l : List Char) (u : String) : Option String :=
  match stripLit u.toList l with
  | some r => if boundaryAfter r then some u else none
  | none => none

/-- One attempt of the size pattern at the current position: a digit
run, an optional `.digits` fraction, optional whitespace, then the
first unit alternative that matches with a word boundary.  When a `.`
is not followed by a digit the fraction cannot match and the remaining
`.` cannot start a unit, so the attempt fails. -/
def sizeAttempt (units : List String) (l : List Char) : Option (List Char × List Char × String) :=
  let ip := l.takeWhile Char.isDigit
  if ip = [] then none
  else
    match l.dropWhile Char.isDigit with
    | '.' :: rd =>
      let fp := rd.takeWhile Char.isDigit
      if fp = [] then none
      else
        match units.findSome? (unitAt (dropWs (rd.dropWhile Char.isDigit))) with
        | some u => some (ip, fp, u)
        | none => none
    | r1 =>
      match units.findSome? (unitAt (dropWs r1)) with
      | some u => some (ip, [], u)
      | none => none

/-- Leftmost-match scan for the size pattern's `re.search`. -/
def sizeScan (units : List String) : List Char → Option (List Char × List Char × String)
  | [] => none
  | c :: cs =>
    match sizeAttempt units (c :: cs) with
    | some m => some m
    | none => sizeScan units cs

/-- `extract_size_str` (app.py lines 311-316): search the lowercased
text for `<number><ws?><unit>` and return it formatted as
`"{number} {unit}"`; no match yields NaN (`none`).  Note the code
performs no unit conversion and recognizes no `kg` unit. -/
def extractSizeStr (t : String) : Option String :=
  (sizeScan unitTable (t.toList.map Char.toLower)).map
    (fun m => String.mk (m.1 ++ (if m.2.1 = [] then [] else '.' :: m.2.1)) ++ " " ++ m.2.2)

/-- Modelled from the spec: unit set of `parse_net_content` (spec §4.2),
{g, gram(s), kg, oz, ounce(s), ml, l}, for comparison with the source's
`extract_size_str` which has no `kg` and converts nothing. -/
def specUnits : List String := ["g", "gram", "grams", "kg", "oz", "ounce", "ounces", "ml", "l"]

/-- Modelled from the spec: the fixed unit→gram table of §4.2
(kg=1000, oz=28.3495, ml=1, l=1000, g=1). -/
def specGrams (u : String) : Frac :=
  if u = "kg" then ⟨1000, 1⟩
  else if u = "oz" ∨ u = "ounce" ∨ u = "ounces" then ⟨283495, 10000⟩
  else if u = "l" then ⟨1000, 1⟩
  else ⟨1, 1⟩

/-- Modelled from the spec: `parse_net_content(text) -> grams` (§4.2):
find the first `<number><whitespace?><unit>` token (case-insensitive,
word-boundary anchored) and convert to grams with the fixed table;
missing if no match.  This function does not exist in the source; it is
stated only to compare the spec's demands with `extract_size_str`. -/
def specParseNetContent (t : String) : Option Frac :=
  (sizeScan specUnits (t.toList.map Char.toLower)).map
    (fun m => (tokVal (m.1, m.2.1)).mul (specGrams m.2.2))

example : extractSizeStr "4 oz" = some "4 oz" := by decide
example : extractSizeStr "120g" = some "120 g" := by decide
example : extractSizeStr "0.5 kg" = none := by decide
example : extractSizeStr "no size info" = none := by decide
example : specParseNetContent "0.5 kg" = some ⟨5000, 10⟩ := by decide
example : specParseNetContent "4 oz" = some ⟨1133980, 10000⟩ := by decide
example : specParseNetContent "120g" = some ⟨120, 1⟩ := by decide
example : specParseNetContent "no size info" = none := by decide

/-- Insert into a `Frac` list sorted ascending by value. -/
def insertFrac (x : Frac) : List Frac → List Frac
  | [] => [x]
  | y :: ys => if x.leB y then x :: y :: ys else y :: insertFrac x ys

/-- Sort a `Frac` list ascending by value (what pandas does before
taking order statistics). -/
def sortFrac : List Frac → List Frac
  | [] => []
  | x :: xs => insertFrac x (sortFrac xs)

/-- `Series.median()` on the (non-null) parsed values: mean of the two
middle order statistics (they coincide for odd length). -/
def medianF (l : List Frac) : Frac :=
  let s := sortFrac l
  let n := s.length
  ((s.getD ((n - 1) / 2) ⟨0, 1⟩).add (s.getD (n / 2) ⟨0, 1⟩)).divN 2

/-- `Series.quantile(0.9)` with pandas' linear interpolation:
`h = 0.9 * (n - 1)`, result `= s[⌊h⌋] + (h - ⌊h⌋) * (s[⌊h⌋+1] - s[⌊h⌋])`
(the interpolation term vanishes when `h` is integral). -/
def q90F (l : List Frac) : Frac :=
  let s := sortFrac l
  let n := s.length
  let lo := 9 * (n - 1) / 10
  let frac : Frac := ⟨9 * (n - 1) - 10 * lo, 10⟩
  (s.getD lo ⟨0, 1⟩).add (frac.mul ((s.getD (lo + 1) ⟨0, 1⟩).sub (s.getD lo ⟨0, 1⟩)))

/-- A table row: cells keyed by column name. -/
def Row := List (String × Cell)

deriving instance DecidableEq for Row

/-- `df[c]` for one row (rows are total over the table's columns; a
missing key is a missing cell). -/
def getCell (r : Row) (c : String) : Cell :=
  match r.lookup c with
  | some v => v
  | none => Cell.missing

/-- A mapped column's cell, or the all-NaN column used when the field is
unmapped (app.py lines 203-226). -/
def mapCell (oc : Option String) (r : Row) : Cell :=
  match oc with
  | some c => getCell r c
  | none => Cell.missing

/-- The non-null parsed values of a column across the rows
(`series.apply(clean_numeric)` with NaNs dropped, as pandas'
`median`/`quantile` do). -/
def parsedVals (rows : List Row) (c : String) : List Frac :=
  rows.filterMap (fun r => cleanNumeric (getCell r c))

/-- The rating strong-validation gate (app.py lines 256-263): with a
mapped rating column, disqualify it when no value parses
(`not np.isfinite(med)`) or the parsed median exceeds 5.5 or the parsed
P90 exceeds 6.0. -/
def ratingDisq (cols : List String) (rows : List Row) : Bool :=
  match findCol cols ratingKeywords with
  | none => false
  | some rc =>
    let vals := parsedVals rows rc
    if vals = [] then true
    else (Frac.ltB ⟨11, 2⟩ (medianF vals)) || (Frac.ltB ⟨6, 1⟩ (q90F vals))

/-- The rating column still in effect after the gate (app.py line 263
sets `col_map["rating"] = None` on disqualification). -/
def effectiveRatingCol (cols : List String) (rows : List Row) : Option String :=
  if ratingDisq cols rows then none else findCol cols ratingKeywords

/-- `Unit_Price_per_item` (app.py lines 345-349): `clean_price /
Pack_Count` when the price is present and the pack count is positive,
else NaN (`np.where(price.notna() & (pack > 0), price / pack, nan)`). -/
def unitPriceCalc (p : Option Frac) (pack : ℕ) : Option Frac :=
  match p with
  | some v => if 0 < pack then some (v.divN pack) else none
  | none => none

/-- One row's normalized derived view: the claim-relevant columns the
PRODUCT dashboard derives (app.py lines 200-349). -/
structure NormalizedRow where
  titleStr : String
  cleanPrice : Option Frac
  cleanSales : Option Frac
  cleanRevenue : Option Frac
  cleanRating : Option Frac
  cleanReviews : Option Frac
  packCount : ℕ
  unitPrice : Option Frac

deriving instance DecidableEq for NormalizedRow

/-- Normalize one row given the title column and the (post-gate) field
columns. -/
def normalizeRow (tc : String) (pc sc vc wc rc : Option String) (r : Row) : NormalizedRow :=
  let title := pyStr (getCell r tc)
  let cp := cleanNumeric (mapCell pc r)
  let pack := extractPack title
  { titleStr := title
    cleanPrice := cp
    cleanSales := cleanNumeric (mapCell sc r)
    cleanRevenue := cleanNumeric (mapCell vc r)
    cleanRating := cleanNumeric (mapCell rc r)
    cleanReviews := cleanNumeric (mapCell wc r)
    packCount := pack
    unitPrice := unitPriceCalc cp pack }

/-- `render_product_dashboard`'s normalization (app.py lines 152-349):
reject the table (`st.error` + `return`, lines 195-197) exactly when no
title column can be mapped; otherwise derive every row, with the rating
column subject to the plausibility gate. -/
def normalizeTable (cols : List String) (rows : List Row) : Option (List NormalizedRow) :=
  match findCol cols titleKeywords with
  | none => none
  | some tc =>
      some (rows.map (normalizeRow tc (findCol cols priceKeywords) (findCol cols salesKeywords)
        (findCol cols revenueKeywords) (findCol cols reviewsKeywords)
        (effectiveRatingCol cols rows)))

/-- The parsed `clean_reviews` column (app.py lines 223-226): the
mapped reviews column run through `clean_numeric`, or all-NaN when the
field is unmapped. -/
def reviewsParsed (cols : List String) (rows : List Row) : List (Option Frac) :=
  rows.map (fun r => cleanNumeric (mapCell (findCol cols reviewsKeywords) r))

/-- The demand proxy the dashboard actually computes (app.py line 426):
the table-level sum of parsed review counts when at least one parses,
else NaN — there is no per-row fallback chain. -/
def demandProxy (cols : List String) (rows : List Row) : Option Frac :=
  if (reviewsParsed cols rows).any Option.isSome then
    some (((reviewsParsed cols rows).filterMap id).foldr Frac.add ⟨0, 1⟩)
  else none

example : findCol ["List Price", "Our Price"] priceKeywords = some "List Price" := by decide
example : findCol ["Product Name", "Price"] brandKeywords = none := by decide
example : findCol ["SKU", "Price", "Units Sold"] titleKeywords = none := by decide
example : demandProxy ["Product Name", "Units Sold"]
    [[("Product Name", Cell.str "T"), ("Units Sold", Cell.str "5")]] = none := by decide

lemma digitChar_isDigit (d : Fin 10) : (digitChar d).isDigit = true := by
  fin_cases d <;> decide

lemma digitChar_toNat (d : Fin 10) : (digitChar d).toNat - 48 = d.val := by
  fin_cases d <;> decide

lemma digitChar_keep (d : Fin 10) : keepChar (digitChar d) = true := by
  fin_cases d <;> decide

lemma digitChar_ne_pct (d : Fin 10) : digitChar d ≠ '%' := by
  fin_cases d <;> decide

lemma digitChar_toLower_ne_n (d : Fin 10) : Char.toLower (digitChar d) ≠ 'n' := by
  fin_cases d <;> decide

lemma natOfDigits_map_aux (l : List (Fin 10)) (a : ℕ) :
    List.foldl (fun a c => 10 * a + (c.toNat - 48)) a (l.map digitChar) =
    List.foldl (fun a d => 10 * a + d.val) a l := by
  induction l generalizing a with
  | nil => rfl
  | cons d tl ih => simp [digitChar_toNat, ih]

lemma natOfDigits_map (l : List (Fin 10)) : natOfDigits (l.map digitChar) = natValF l :=
  natOfDigits_map_aux l 0

lemma scanAux_digits_intPart (ds : List (Fin 10)) (acc rest : List Char) :
    scanAux (.intPart acc) (ds.map digitChar ++ rest) =
    scanAux (.intPart ((ds.map digitChar).reverse ++ acc)) rest := by
  induction ds generalizing acc with
  | nil => simp
  | cons d tl ih =>
      simp only [List.map_cons, List.cons_append, scanAux, digitChar_isDigit, if_true]
      refine (ih (digitChar d :: acc)).trans ?_
      simp [List.reverse_cons, List.append_assoc]

lemma scanAux_digits_fracPart (ds : List (Fin 10)) (ip acc rest : List Char) :
    scanAux (.fracPart ip acc) (ds.map digitChar ++ rest) =
    scanAux (.fracPart ip ((ds.map digitChar).reverse ++ acc)) rest := by
  induction ds generalizing acc with
  | nil => simp
  | cons d tl ih =>
      simp only [List.map_cons, List.cons_append, scanAux, digitChar_isDigit, if_true]
      refine (ih (digitChar d :: acc)).trans ?_
      simp [List.reverse_cons, List.append_assoc]

lemma render_chars {c : Char} (neg : Bool) (ip fp : List (Fin 10))
    (h : c ∈ renderNum neg ip fp) : c = '-' ∨ c = '.' ∨ ∃ d, c = digitChar d := by
  simp only [renderNum, List.append_assoc, List.mem_append] at h
  rcases h with h | h | h
  · cases neg <;> simp_all
  · right; right
    obtain ⟨d, _, rfl⟩ := List.mem_map.mp h
    exact ⟨d, rfl⟩
  · by_cases hfp : fp = []
    · simp [hfp] at h
    · rw [if_neg hfp] at h
      rcases List.mem_cons.mp h with rfl | h
      · right; left; rfl
      · right; right
        obtain ⟨d, _, rfl⟩ := List.mem_map.mp h
        exact ⟨d, rfl⟩

lemma render_no_pct (neg : Bool) (ip fp : List (Fin 10)) : '%' ∉ renderNum neg ip fp := by
  intro h
  rcases render_chars neg ip fp h with h1 | h1 | ⟨d, h1⟩
  · exact absurd h1 (by decide)
  · exact absurd h1 (by decide)
  · exact digitChar_ne_pct d h1.symm

lemma render_filter (neg : Bool) (ip fp : List (Fin 10)) :
    (renderNum neg ip fp).filter keepChar = renderNum neg ip fp := by
  apply List.filter_eq_self.mpr
  intro c hc
  rcases render_chars neg ip fp hc with h1 | h1 | ⟨d, h1⟩
  · subst h1; decide
  · subst h1; decide
  · subst h1; exact digitChar_keep d

lemma scanAux_idle_skip (c : Char) (hc : c.isDigit = false) (cs : List Char) :
    scanAux .idle (c :: cs) = scanAux .idle cs := by
  simp [scanAux, hc]

lemma extractTokens_body (ip fp : List (Fin 10)) (h : ip ≠ []) :
    scanAux .idle (ip.map digitChar ++ (if fp = [] then [] else '.' :: fp.map digitChar)) =
    [(ip.map digitChar, fp.map digitChar)] := by
  obtain ⟨d, ds, rfl⟩ := List.exists_cons_of_ne_nil h
  have h1 : scanAux ScanSt.idle
      (List.map digitChar (d :: ds) ++ (if fp = [] then [] else '.' :: fp.map digitChar)) =
      scanAux (ScanSt.intPart ((List.map digitChar ds).reverse ++ [digitChar d]))
        (if fp = [] then [] else '.' :: fp.map digitChar) := by
    simp only [List.map_cons, List.cons_append, scanAux, digitChar_isDigit, if_true]
    exact scanAux_digits_intPart ds [digitChar d] _
  rw [h1]
  rcases fp with _ | ⟨f, fs⟩
  · simp [scanAux, scanFlush, List.reverse_append]
  · rw [if_neg (by simp)]
    have hdot : ('.' : Char).isDigit = false := by decide
    have h2 : scanAux (ScanSt.intPart ((List.map digitChar ds).reverse ++ [digitChar d]))
        ('.' :: List.map digitChar (f :: fs)) =
        scanAux (ScanSt.fracPart (((List.map digitChar ds).reverse ++ [digitChar d]).reverse) [])
          (List.map digitChar (f :: fs)) := by
      simp [scanAux, hdot, digitChar_isDigit]
    rw [h2]
    have h3 := scanAux_digits_fracPart (f :: fs)
      (((List.map digitChar ds).reverse ++ [digitChar d]).reverse) [] []
    rw [List.append_nil] at h3
    rw [h3]
    simp [scanAux, scanFlush, List.reverse_append]

lemma extractTokens_render (neg : Bool) (ip fp : List (Fin 10)) (h : ip ≠ []) :
    extractTokens (renderNum neg ip fp) = [(ip.map digitChar, fp.map digitChar)] := by
  cases neg
  · simpa [renderNum, extractTokens] using extractTokens_body ip fp h
  · have hr : renderNum true ip fp =
        '-' :: (ip.map digitChar ++ (if fp = [] then [] else '.' :: fp.map digitChar)) := by
      simp [renderNum]
    rw [extractTokens, hr, scanAux_idle_skip '-' (by decide)]
    exact extractTokens_body ip fp h

lemma nanList : "nan".toList = ['n', 'a', 'n'] := rfl

lemma nullList : "null".toList = ['n', 'u', 'l', 'l'] := rfl

lemma render_guard (neg : Bool) (ip fp : List (Fin 10)) (h : ip ≠ []) :
    ¬(renderNum neg ip fp = [] ∨
      (renderNum neg ip fp).map Char.toLower = "nan".toList ∨
      (renderNum neg ip fp).map Char.toLower = "null".toList) := by
  obtain ⟨d, ds, rfl⟩ := List.exists_cons_of_ne_nil h
  cases neg
  · have hr : renderNum false (d :: ds) fp =
        digitChar d ::
          (List.map digitChar ds ++ (if fp = [] then [] else '.' :: fp.map digitChar)) := by
      simp [renderNum]
    rw [hr, nanList, nullList]
    rintro (h1 | h1 | h1)
    · exact List.cons_ne_nil _ _ h1
    · have h2 := congrArg List.head? h1
      simp only [List.map_cons, List.head?_cons, Option.some.injEq] at h2
      exact digitChar_toLower_ne_n d h2
    · have h2 := congrArg List.head? h1
      simp only [List.map_cons, List.head?_cons, Option.some.injEq] at h2
      exact digitChar_toLower_ne_n d h2
  · have hr : renderNum true (d :: ds) fp =
        '-' :: (List.map digitChar (d :: ds) ++
          (if fp = [] then [] else '.' :: fp.map digitChar)) := by
      simp [renderNum]
    rw [hr, nanList, nullList]
    rintro (h1 | h1 | h1)
    · exact List.cons_ne_nil _ _ h1
    · have h2 := congrArg List.head? h1
      simp only [List.map_cons, List.head?_cons, Option.some.injEq] at h2
      exact absurd h2 (by decide)
    · have h2 := congrArg List.head? h1
      simp only [List.map_cons, List.head?_cons, Option.some.injEq] at h2
      exact absurd h2 (by decide)

lemma tokVal_num_nonneg (t : List Char × List Char) : 0 ≤ (tokVal t).num := by
  have h1 : (0 : ℤ) ≤ (10 : ℤ) ^ t.2.length * (natOfDigits t.1 : ℤ) :=
    mul_nonneg (pow_nonneg (by norm_num) _) (Int.natCast_nonneg _)
  have h2 : (0 : ℤ) ≤ (natOfDigits t.2 : ℤ) := Int.natCast_nonneg _
  simpa [tokVal] using add_nonneg h1 h2

lemma add_num_nonneg {a b : Frac} (ha : 0 ≤ a.num) (hb : 0 ≤ b.num) : 0 ≤ (a.add b).num :=
  add_nonneg (mul_nonneg ha (Int.natCast_nonneg _)) (mul_nonneg hb (Int.natCast_nonneg _))

lemma cleanNumericL_num_nonneg (l : List Char) (f : Frac) (hp : '%' ∉ l)
    (h : cleanNumericL l = some f) : 0 ≤ f.num := by
  have hs : '%' ∉ l.filter keepChar := fun hm => hp (List.mem_of_mem_filter hm)
  simp only [cleanNumericL] at h
  rw [if_neg hs] at h
  rcases htok : extractTokens (l.filter keepChar) with _ | ⟨t1, _ | ⟨t2, rest⟩⟩ <;> rw [htok] at h
  · exact absurd h (by simp)
  · have h2 : some (tokVal t1) = some f := h
    obtain rfl := Option.some.inj h2
    exact tokVal_num_nonneg t1
  · have h2 : (if ('-' ∈ List.filter keepChar l) ∨
        (containsSeq ['t', 'o'] ((List.filter keepChar l).map Char.toLower) = true) then
        some (((tokVal t1).add (tokVal t2)).divN 2) else some (tokVal t1)) = some f := h
    split at h2
    · obtain rfl := Option.some.inj h2
      exact add_num_nonneg (tokVal_num_nonneg t1) (tokVal_num_nonneg t2)
    · obtain rfl := Option.some.inj h2
      exact tokVal_num_nonneg t1

lemma cleanStageL_num_nonneg (l : List Char) (f : Frac) (hp : '%' ∉ l)
    (h : cleanStageL l = some f) : 0 ≤ f.num := by
  rw [cleanStageL] at h
  split at h
  · exact absurd h (by simp)
  · exact cleanNumericL_num_nonneg l f hp h

lemma clean_num_nonneg (c : Cell) (f : Frac) (hf : pctFree c = true)
    (h : cleanNumeric c = some f) : 0 ≤ f.num := by
  cases c with
  | missing => exact absurd h (by simp [cleanNumeric])
  | num neg ip fp => exact cleanStageL_num_nonneg _ f (render_no_pct neg ip fp) h
  | str s =>
      have hp : '%' ∉ strForm s := by simpa [pctFree] using hf
      exact cleanStageL_num_nonneg _ f hp h

lemma toQ_nonneg {f : Frac} (h : 0 ≤ f.num) : 0 ≤ toQ f := by
  unfold toQ
  apply div_nonneg
  · exact_mod_cast h
  · positivity

lemma toQ_tokVal (a b : List Char) :
    toQ (tokVal (a, b)) = (natOfDigits a : ℚ) + (natOfDigits b : ℚ) / 10 ^ b.length := by
  unfold toQ tokVal
  have h10 : ((10 : ℚ) ^ b.length) ≠ 0 := by positivity
  push_cast
  field_simp
  ring

lemma toQ_mean (t1 t2 : List Char × List Char) :
    toQ (((tokVal t1).add (tokVal t2)).divN 2) = (toQ (tokVal t1) + toQ (tokVal t2)) / 2 := by
  unfold toQ Frac.add Frac.divN tokVal
  have h1 : ((10 : ℚ) ^ t1.2.length) ≠ 0 := by positivity
  have h2 : ((10 : ℚ) ^ t2.2.length) ≠ 0 := by positivity
  push_cast
  field_simp

lemma foldr_add_num_nonneg (l : List Frac) (h : ∀ x ∈ l, 0 ≤ x.num) :
    0 ≤ (l.foldr Frac.add ⟨0, 1⟩).num := by
  induction l with
  | nil => simp
  | cons a tl ih =>
      exact add_num_nonneg (h a (List.mem_cons_self a tl))
        (ih fun x hx => h x (List.mem_cons_of_mem a hx))

/-- C7 counterexample: a numeric cell is not returned as-is.  The
Python number −5 (`str()` form `"-5"`) has value −5, but `clean_numeric`
re-parses its string form with a sign-less pattern and yields +5; a
float whose `str()` uses exponent notation (`1e-07`) is mangled to 4 by
the range rule (two numeric substrings `1`, `07` and a `-`). -/
theorem c7_counterexample :
    cleanNumeric (Cell.num true [5] []) = some ⟨5, 1⟩ ∧
    toQ ⟨5, 1⟩ = 5 ∧ numValue true [5] [] = -5 ∧
    cleanStageL ("1e-07".toList) = some ⟨8, 2⟩ ∧ toQ ⟨8, 2⟩ = 4 := by
  refine ⟨by decide, by norm_num [toQ], ?_, by decide, by norm_num [toQ]⟩
  have h5 : natValF [5] = 5 := rfl
  have h0 : natValF ([] : List (Fin 10)) = 0 := rfl
  norm_num [numValue, h5, h0]

/-- C7 (amended): for a numeric cell whose `str()` rendering is a plain
decimal (optional sign, at least one integer digit, optional fraction
digits), `clean_numeric` returns the cell's absolute value: non-negative
plain-decimal numbers pass through unchanged, but the sign of a negative
number is discarded, and exponent-notation renderings are not returned
as-is at all. -/
theorem c7_numeric_reparse (neg : Bool) (ip fp : List (Fin 10)) (hip : ip ≠ []) :
    (cleanNumeric (Cell.num neg ip fp)).map toQ = some |numValue neg ip fp| := by
  have hguard := render_guard neg ip fp hip
  have h1 : cleanNumeric (Cell.num neg ip fp) = cleanNumericL (renderNum neg ip fp) := by
    show cleanStageL (renderNum neg ip fp) = _
    rw [cleanStageL, if_neg hguard]
  rw [h1]
  simp only [cleanNumericL]
  rw [render_filter, if_neg (render_no_pct neg ip fp), extractTokens_render neg ip fp hip]
  show (some (tokVal (ip.map digitChar, fp.map digitChar))).map toQ = _
  rw [Option.map_some']
  refine congrArg some ?_
  rw [toQ_tokVal, natOfDigits_map, natOfDigits_map, List.length_map]
  have hx : (0 : ℚ) ≤ (natValF ip : ℚ) + (natValF fp : ℚ) / 10 ^ fp.length := by positivity
  cases neg
  · simp [numValue, abs_of_nonneg hx]
  · have hv : numValue true ip fp =
        -((natValF ip : ℚ) + (natValF fp : ℚ) / 10 ^ fp.length) := by
      simp [numValue]
    rw [hv, abs_neg, abs_of_nonneg hx]

/-- C7 witness: the numeric cell −12.5 parses to its absolute value
12.5. -/
theorem c7_witness :
    (cleanNumeric (Cell.num true [1, 2] [5])).map toQ = some (25 / 2 : ℚ) := by
  have h := c7_numeric_reparse true [1, 2] [5] (by simp)
  rw [h]
  have h12 : natValF [1, 2] = 12 := rfl
  have h5 : natValF [5] = 5 := rfl
  norm_num [numValue, h12, h5]

/-- C10: for every cell whose (trimmed) string form carries no percent
sign, `clean_numeric` is either missing or non-negative: the extraction
pattern `\d+(?:\.\d+)?` captures no sign, so a leading minus is
discarded — the string `"-5"` parses to 5, never to −5.  Hence every
percent-free cleaned price/sales/reviews/revenue value fed to
aggregates is non-negative or missing. -/
theorem c10_no_percent_nonneg :
    (∀ (c : Cell) (f : Frac), pctFree c = true → cleanNumeric c = some f → 0 ≤ toQ f) ∧
    (cleanNumeric (Cell.str "-5")).map toQ = some 5 ∧
    (cleanNumeric (Cell.str "-5")).map toQ ≠ some (-5) := by
  have h : cleanNumeric (Cell.str "-5") = some ⟨5, 1⟩ := by decide
  refine ⟨fun c f hf hc => toQ_nonneg (clean_num_nonneg c f hf hc), ?_, ?_⟩
  · rw [h]; norm_num [toQ, Option.map_some']
  · rw [h]; norm_num [toQ, Option.map_some']

/-- C10 witness: the percent-free cell `"3"` parses to a non-negative
value. -/
theorem c10_witness : 0 ≤ toQ ⟨3, 1⟩ :=
  c10_no_percent_nonneg.1 (Cell.str "3") ⟨3, 1⟩ (by decide) (by decide)

/-- C1 counterexample: a table whose brand field cannot be mapped (no
column matches the brand keywords) is nevertheless normalized — the
code checks only the title column (app.py lines 195-197), so the claim
that a missing brand mapping rejects the table is false. -/
theorem c1_counterexample :
    findCol ["Product Name", "Price"] brandKeywords = none ∧
    (normalizeTable ["Product Name", "Price"]
      [[("Product Name", Cell.str "Toothpaste"), ("Price", Cell.str "9.99")]]).isSome = true :=
  ⟨by decide, by decide⟩

/-- C1 (amended): only the title field is required.  Normalization of a
table is rejected (no records produced, with the error naming the
title field) exactly when no title column can be mapped; in particular
the spec's `["SKU", "Price", "Units Sold"]` table is rejected.  An
unmappable brand column does not reject the table. -/
theorem c1_title_required (cols : List String) (rows : List Row) :
    ((normalizeTable cols rows = none) ↔ findCol cols titleKeywords = none) ∧
    normalizeTable ["SKU", "Price", "Units Sold"] rows = none := by
  constructor
  · rw [normalizeTable]
    rcases h : findCol cols titleKeywords with _ | tc <;> simp [h]
  · rw [normalizeTable]
    have h : findCol ["SKU", "Price", "Units Sold"] titleKeywords = none := by decide
    rw [h]

/-- C1 witness: concrete instances of the rejection criterion. -/
theorem c1_witness :
    normalizeTable ["SKU", "Price", "Units Sold"] [] = none ∧
    ((normalizeTable ["Title"] [] = none) ↔ findCol ["Title"] titleKeywords = none) :=
  ⟨(c1_title_required ["A"] []).2, (c1_title_required ["Title"] []).1⟩

/-- C3 counterexample: a table with a parsable sales column but no
reviews column.  The claimed fallback chain would give each row a
demand proxy of 5 (from sales) and the claim says the proxy is never
missing; the code's demand proxy (app.py line 426) only sums parsed
reviews and is missing here. -/
theorem c3_counterexample :
    cleanNumeric (Cell.str "5") = some ⟨5, 1⟩ ∧
    findCol ["Product Name", "Units Sold"] salesKeywords = some "Units Sold" ∧
    demandProxy ["Product Name", "Units Sold"]
      [[("Product Name", Cell.str "T"), ("Units Sold", Cell.str "5")]] = none :=
  ⟨by decide, by decide, by decide⟩

/-- C3 (amended): the demand proxy is a single table-level value — the
sum of parsed review counts — not a per-row fallback chain: it is
missing exactly when no reviews cell parses (sales, revenue, rank and
price are never consulted), and when present and all reviews cells are
percent-free it is non-negative. -/
theorem c3_demand_proxy (cols : List String) (rows : List Row) :
    ((demandProxy cols rows = none) ↔ ∀ v ∈ reviewsParsed cols rows, v = none) ∧
    (∀ f, demandProxy cols rows = some f →
      (∀ r ∈ rows, pctFree (mapCell (findCol cols reviewsKeywords) r) = true) →
      0 ≤ toQ f) := by
  have hiff : (demandProxy cols rows = none) ↔
      ((reviewsParsed cols rows).any Option.isSome = false) := by
    cases hany : (reviewsParsed cols rows).any Option.isSome <;> simp [demandProxy, hany]
  constructor
  · rw [hiff, List.any_eq_false]
    constructor
    · intro hall v hv
      have := hall v hv
      simpa [Option.not_isSome_iff_eq_none] using this
    · intro hall v hv
      simp [hall v hv]
  · intro f hf hp
    apply toQ_nonneg
    rw [demandProxy] at hf
    split at hf
    · have h2 := Option.some.inj hf
      rw [← h2]
      apply foldr_add_num_nonneg
      intro x hx
      obtain ⟨v, hv, hvx⟩ := List.mem_filterMap.mp hx
      obtain ⟨r, hr, rfl⟩ := List.mem_map.mp hv
      exact clean_num_nonneg _ x (hp r hr) hvx
    · exact absurd hf (by simp)

/-- C3 witness: a table with one parsing reviews cell has demand proxy
10, which is non-negative. -/
theorem c3_witness : 0 ≤ toQ ⟨10, 1⟩ :=
  (c3_demand_proxy ["Title", "Reviews"]
    [[("Title", Cell.str "A"), ("Reviews", Cell.str "10")]]).2 ⟨10, 1⟩ (by decide) (by decide)

/-- C5 counterexample: `find_col` has no exclude list; on
`["List Price", "Our Price"]` with the price keywords it returns the
first substring match `"List Price"`, not `"Our Price"` as the claim
requires. -/
theorem c5_counterexample :
    findCol ["List Price", "Our Price"] priceKeywords = some "List Price" ∧
    findCol ["List Price", "Our Price"] priceKeywords ≠ some "Our Price" :=
  ⟨by decide, by decide⟩

/-- C5 (amended): `find_col` scans columns in order and returns the
first whose normalized (lowercased, space-stripped) name contains some
keyword as a substring; there is no exclude penalty, so the table
`["List Price", "Our Price"]` selects `"List Price"` for the price
field. -/
theorem c5_first_substring_match :
    (∀ (cols kws : List String) (col : String), findCol cols kws = some col →
      col ∈ cols ∧ ∃ kw ∈ kws, containsSeq (normName kw) (normName col) = true) ∧
    findCol ["List Price", "Our Price"] priceKeywords = some "List Price" := by
  constructor
  · intro cols kws col h
    refine ⟨List.mem_of_find?_eq_some h, ?_⟩
    have hp := List.find?_some h
    simpa [List.any_eq_true] using hp
  · decide

/-- C5 witness: the selected column `"List Price"` is a member of the
table and matched through the keyword `"price"`. -/
theorem c5_witness :
    "List Price" ∈ ["List Price", "Our Price"] ∧
    ∃ kw ∈ priceKeywords, containsSeq (normName kw) (normName "List Price") = true :=
  c5_first_substring_match.1 ["List Price", "Our Price"] priceKeywords "List Price"
    c5_first_substring_match.2

/-- C2: for a mapped rating column, when the parsed distribution fails
the 0–5 plausibility bound (parsed median above 5.5, or P90 above 6.0,
or no value parses), the rating field is disqualified before
normalization: the rating column becomes unmapped, every normalized
record's rating is missing, and the rest of the table is still
processed (one record per row, with prices parsed as usual). -/
theorem c2_rating_gate (cols : List String) (rows : List Row) (tc rc : String)
    (htitle : findCol cols titleKeywords = some tc)
    (hrc : findCol cols ratingKeywords = some rc)
    (htrig : parsedVals rows rc = [] ∨
      Frac.ltB ⟨11, 2⟩ (medianF (parsedVals rows rc)) = true ∨
      Frac.ltB ⟨6, 1⟩ (q90F (parsedVals rows rc)) = true) :
    effectiveRatingCol cols rows = none ∧
    ∃ recs, normalizeTable cols rows = some recs ∧ recs.length = rows.length ∧
      (∀ rec ∈ recs, rec.cleanRating = none) ∧
      recs.map (fun rec => rec.cleanPrice) =
        rows.map (fun r => cleanNumeric (mapCell (findCol cols priceKeywords) r)) := by
  have hdisq : ratingDisq cols rows = true := by
    rw [ratingDisq, hrc]
    show (if parsedVals rows rc = [] then true
      else Frac.ltB ⟨11, 2⟩ (medianF (parsedVals rows rc)) ||
        Frac.ltB ⟨6, 1⟩ (q90F (parsedVals rows rc))) = true
    by_cases hv : parsedVals rows rc = []
    · rw [if_pos hv]
    · rw [if_neg hv]
      rcases htrig with h | h | h
      · exact absurd h hv
      · rw [h, Bool.true_or]
      · rw [h, Bool.or_true]
  have heff : effectiveRatingCol cols rows = none := by
    rw [effectiveRatingCol, if_pos hdisq]
  refine ⟨heff, ?_⟩
  rw [normalizeTable, htitle]
  refine ⟨_, rfl, by simp, ?_, ?_⟩
  · intro rec hrec
    obtain ⟨r, _, rfl⟩ := List.mem_map.mp hrec
    simp [normalizeRow, heff, mapCell, cleanNumeric]
  · simp [List.map_map, Function.comp, normalizeRow]

/-- C2 witness: a rating column holding review counts (4500, 120, 89)
is disqualified (median 120 far above 5.5) and the table is still
normalized with all ratings missing. -/
theorem c2_witness :
    effectiveRatingCol ["Title", "Rating"]
      [[("Title", Cell.str "A"), ("Rating", Cell.str "4500")],
       [("Title", Cell.str "B"), ("Rating", Cell.str "120")],
       [("Title", Cell.str "C"), ("Rating", Cell.str "89")]] = none ∧
    ∃ recs, normalizeTable ["Title", "Rating"]
      [[("Title", Cell.str "A"), ("Rating", Cell.str "4500")],
       [("Title", Cell.str "B"), ("Rating", Cell.str "120")],
       [("Title", Cell.str "C"), ("Rating", Cell.str "89")]] = some recs ∧
      recs.length =
        ([[("Title", Cell.str "A"), ("Rating", Cell.str "4500")],
          [("Title", Cell.str "B"), ("Rating", Cell.str "120")],
          [("Title", Cell.str "C"), ("Rating", Cell.str "89")]] : List Row).length ∧
      (∀ rec ∈ recs, rec.cleanRating = none) ∧
      recs.map (fun rec => rec.cleanPrice) =
        ([[("Title", Cell.str "A"), ("Rating", Cell.str "4500")],
          [("Title", Cell.str "B"), ("Rating", Cell.str "120")],
          [("Title", Cell.str "C"), ("Rating", Cell.str "89")]] : List Row).map
          (fun r => cleanNumeric (mapCell (findCol ["Title", "Rating"] priceKeywords) r)) :=
  c2_rating_gate ["Title", "Rating"]
    [[("Title", Cell.str "A"), ("Rating", Cell.str "4500")],
     [("Title", Cell.str "B"), ("Rating", Cell.str "120")],
     [("Title", Cell.str "C"), ("Rating", Cell.str "89")]] "Title" "Rating"
    (by decide) (by decide) (Or.inr (Or.inl (by decide)))

/-- C4 counterexample: the percent mode is silently applied to price
fields: the price cell `"50%"` parses to 0.5 and that value lands in
the price column of the normalized record. -/
theorem c4_counterexample :
    (cleanNumeric (Cell.str "50%")).map toQ = some (1 / 2 : ℚ) ∧
    ((normalizeTable ["Title", "Price"]
        [[("Title", Cell.str "T"), ("Price", Cell.str "50%")]]).map
      (fun recs => recs.map (fun rec => Option.map toQ rec.cleanPrice))) =
      some [some (1 / 2 : ℚ)] := by
  have h1 : cleanNumeric (Cell.str "50%") = some ⟨50, 100⟩ := by decide
  have h2 : normalizeTable ["Title", "Price"]
      [[("Title", Cell.str "T"), ("Price", Cell.str "50%")]] =
      some [⟨"T", some ⟨50, 100⟩, none, none, none, none, 1, some ⟨50, 100⟩⟩] := by decide
  constructor
  · rw [h1]; norm_num [toQ, Option.map_some']
  · rw [h2]; norm_num [toQ, Option.map_some']

/-- C4 (amended): the percent branch is part of `clean_numeric` itself
and fires on every field, price included: the price column of every
normalized table is exactly `clean_numeric` of the mapped price cells
(no price-specific mode selection exists), and `clean_numeric`
divides `"50%"` by 100, yielding 0.5. -/
theorem c4_percent_applies_to_price :
    (∀ (cols : List String) (rows : List Row) (recs : List NormalizedRow),
      normalizeTable cols rows = some recs →
      recs.map (fun rec => rec.cleanPrice) =
        rows.map (fun r => cleanNumeric (mapCell (findCol cols priceKeywords) r))) ∧
    (cleanNumeric (Cell.str "50%")).map toQ = some (1 / 2 : ℚ) := by
  constructor
  · intro cols rows recs hn
    rw [normalizeTable] at hn
    rcases ht : findCol cols titleKeywords with _ | tc <;> rw [ht] at hn
    · exact absurd hn (by simp)
    · have h2 := Option.some.inj hn
      subst h2
      simp [List.map_map, Function.comp, normalizeRow]
  · have h1 : cleanNumeric (Cell.str "50%") = some ⟨50, 100⟩ := by decide
    rw [h1]; norm_num [toQ, Option.map_some']

/-- C4 witness: the price pipeline on a one-row table with price cell
`"50%"`. -/
theorem c4_witness :
    ([(⟨"T", some ⟨50, 100⟩, none, none, none, none, 1, some ⟨50, 100⟩⟩ : NormalizedRow)].map
      (fun rec => rec.cleanPrice)) =
    ([[("Title", Cell.str "T"), ("Price", Cell.str "50%")]] : List Row).map
      (fun r => cleanNumeric (mapCell (findCol ["Title", "Price"] priceKeywords) r)) :=
  c4_percent_applies_to_price.1 ["Title", "Price"]
    [[("Title", Cell.str "T"), ("Price", Cell.str "50%")]]
    [⟨"T", some ⟨50, 100⟩, none, none, none, none, 1, some ⟨50, 100⟩⟩] (by decide)

/-- C6 counterexample: the cell `"10-20%"` contains an ASCII hyphen and
two numeric substrings, yet `clean_numeric` does not return the mean 15:
the percent branch takes priority and `float("10-20")` fails, so the
cell is Unparseable — refuting the claim's universal range rule.
(`"10-20"` itself does give 15.) -/
theorem c6_counterexample :
    cleanNumeric (Cell.str "10-20") = some ⟨30, 2⟩ ∧ toQ ⟨30, 2⟩ = 15 ∧
    cleanNumeric (Cell.str "10-20%") = none :=
  ⟨by decide, by norm_num [toQ], by decide⟩

/-- C6 (amended): for every string cell whose trimmed form is not a
missing marker and whose stripped form carries no `%`, if the stripped
form contains a `-` or the word `to` and at least two numeric
substrings, the result is the arithmetic mean of the first two numbers;
the concrete examples hold as stated (`"10-20"` ↦ 15,
`"$12.99 (save $2)"` ↦ 12.99, `"US$ 12.99/count"` ↦ 12.99, `""` and
`"abc"` Unparseable). -/
theorem c6_range_mean :
    (∀ (s : String) (t1 t2 : List Char × List Char) (rest : List (List Char × List Char)),
      strForm s ≠ [] →
      (strForm s).map Char.toLower ≠ "nan".toList →
      (strForm s).map Char.toLower ≠ "null".toList →
      '%' ∉ strippedForm s →
      extractTokens (strippedForm s) = t1 :: t2 :: rest →
      (('-' ∈ strippedForm s) ∨
        (containsSeq ['t', 'o'] ((strippedForm s).map Char.toLower) = true)) →
      (cleanNumeric (Cell.str s)).map toQ = some ((toQ (tokVal t1) + toQ (tokVal t2)) / 2)) ∧
    (cleanNumeric (Cell.str "10-20")).map toQ = some 15 ∧
    (cleanNumeric (Cell.str "$12.99 (save $2)")).map toQ = some (1299 / 100 : ℚ) ∧
    (cleanNumeric (Cell.str "US$ 12.99/count")).map toQ = some (1299 / 100 : ℚ) ∧
    cleanNumeric (Cell.str "") = none ∧
    cleanNumeric (Cell.str "abc") = none := by
  refine ⟨?_, ?_, ?_, ?_, by decide, by decide⟩
  · intro s t1 t2 rest h1 h2 h3 hp htok hrange
    have hcs : cleanNumeric (Cell.str s) = cleanNumericL (strForm s) := by
      show cleanStageL (strForm s) = _
      rw [cleanStageL, if_neg (by push_neg; exact ⟨h1, h2, h3⟩)]
    rw [hcs]
    simp only [cleanNumericL]
    have hstv : (strForm s).filter keepChar = strippedForm s := rfl
    rw [hstv, if_neg hp, htok]
    show Option.map toQ (if ('-' ∈ strippedForm s) ∨
        (containsSeq ['t', 'o'] ((strippedForm s).map Char.toLower) = true) then
        some (((tokVal t1).add (tokVal t2)).divN 2) else some (tokVal t1)) =
      some ((toQ (tokVal t1) + toQ (tokVal t2)) / 2)
    rw [if_pos hrange, Option.map_some']
    exact congrArg some (toQ_mean t1 t2)
  · have h : cleanNumeric (Cell.str "10-20") = some ⟨30, 2⟩ := by decide
    rw [h]; norm_num [toQ, Option.map_some']
  · have h : cleanNumeric (Cell.str "$12.99 (save $2)") = some ⟨1299, 100⟩ := by decide
    rw [h]; norm_num [toQ, Option.map_some']
  · have h : cleanNumeric (Cell.str "US$ 12.99/count") = some ⟨1299, 100⟩ := by decide
    rw [h]; norm_num [toQ, Option.map_some']

/-- C6 witness: the range rule applied to the concrete cell `"10-20"`. -/
theorem c6_witness :
    (cleanNumeric (Cell.str "10-20")).map toQ =
      some ((toQ (tokVal (['1', '0'], [])) + toQ (tokVal (['2', '0'], []))) / 2) :=
  c6_range_mean.1 "10-20" (['1', '0'], []) (['2', '0'], []) []
    (by decide) (by decide) (by decide) (by decide) (by decide) (by decide)

/-- C8 counterexample: the source has no gram conversion at all.  The
spec's `parse_net_content` demands 500 (grams) for `"0.5 kg"` and
≈113.398 for `"4 oz"` (both computed here by the spec-modelled
function), but the source's `extract_size_str` recognizes no `kg` unit
(yielding missing on `"0.5 kg"`) and never converts. -/
theorem c8_counterexample :
    extractSizeStr "0.5 kg" = none ∧
    (specParseNetContent "0.5 kg").map toQ = some 500 ∧
    (specParseNetContent "4 oz").map toQ = some (113398 / 1000 : ℚ) := by
  refine ⟨by decide, ?_, ?_⟩
  · have h : specParseNetContent "0.5 kg" = some ⟨5000, 10⟩ := by decide
    rw [h]; norm_num [toQ, Option.map_some']
  · have h : specParseNetContent "4 oz" = some ⟨1133980, 10000⟩ := by decide
    rw [h]; norm_num [toQ, Option.map_some']

/-- C8 (amended): the source's size extractor returns the first
`<number><unit>` token of the lowercased text as the *string*
`"{number} {unit}"` with unit ∈ {oz, ounce(s), g, gram(s), ml, l} — no
`kg` unit and no conversion to grams: `"4 oz"` ↦ `"4 oz"`, `"120g"` ↦
`"120 g"`, while `"0.5 kg"` and `"no size info"` yield missing. -/
theorem c8_size_string :
    extractSizeStr "4 oz" = some "4 oz" ∧ extractSizeStr "120g" = some "120 g" ∧
    extractSizeStr "0.5 kg" = none ∧ extractSizeStr "no size info" = none :=
  ⟨by decide, by decide, by decide, by decide⟩

/-- C9 counterexample: a price cell `"-50%"` produces the negative unit
price −0.5 in the normalized record, refuting non-negativity (the
percent branch of `clean_numeric` preserves the sign that `float()`
parses). -/
theorem c9_counterexample :
    ((normalizeTable ["Title", "Price"]
        [[("Title", Cell.str "T"), ("Price", Cell.str "-50%")]]).map
      (fun recs => recs.map (fun rec => Option.map toQ rec.unitPrice))) =
      some [some (-(1 : ℚ) / 2)] ∧ (-(1 : ℚ) / 2) < 0 := by
  constructor
  · have h : normalizeTable ["Title", "Price"]
        [[("Title", Cell.str "T"), ("Price", Cell.str "-50%")]] =
        some [⟨"T", some ⟨-50, 100⟩, none, none, none, none, 1, some ⟨-50, 100⟩⟩] := by decide
    rw [h]; norm_num [toQ, Option.map_some']
  · norm_num

/-- C9 (amended): for every normalized record, a zero pack count makes
the unit price missing (division by zero never occurs), and whenever
the row's price cell is percent-free the unit price is either missing
or a (finite) non-negative rational. -/
theorem c9_unit_price (cols : List String) (rows : List Row) (recs : List NormalizedRow)
    (rec : NormalizedRow) (hn : normalizeTable cols rows = some recs) (hm : rec ∈ recs)
    (hp : ∀ r ∈ rows, pctFree (mapCell (findCol cols priceKeywords) r) = true) :
    (rec.packCount = 0 → rec.unitPrice = none) ∧
    (rec.unitPrice = none ∨ ∃ f, rec.unitPrice = some f ∧ 0 ≤ toQ f) := by
  rw [normalizeTable] at hn
  rcases ht : findCol cols titleKeywords with _ | tc <;> rw [ht] at hn
  · exact absurd hn (by simp)
  · have h2 := Option.some.inj hn
    subst h2
    obtain ⟨r, hr, rfl⟩ := List.mem_map.mp hm
    have hpk : (normalizeRow tc (findCol cols priceKeywords) (findCol cols salesKeywords)
        (findCol cols revenueKeywords) (findCol cols reviewsKeywords)
        (effectiveRatingCol cols rows) r).packCount = extractPack (pyStr (getCell r tc)) := rfl
    have hup : (normalizeRow tc (findCol cols priceKeywords) (findCol cols salesKeywords)
        (findCol cols revenueKeywords) (findCol cols reviewsKeywords)
        (effectiveRatingCol cols rows) r).unitPrice =
        unitPriceCalc (cleanNumeric (mapCell (findCol cols priceKeywords) r))
          (extractPack (pyStr (getCell r tc))) := rfl
    rw [hpk, hup]
    rcases hc : cleanNumeric (mapCell (findCol cols priceKeywords) r) with _ | f
    · exact ⟨fun _ => by simp [unitPriceCalc], Or.inl (by simp [unitPriceCalc])⟩
    · constructor
      · intro hz
        simp only [unitPriceCalc]
        rw [if_neg (by omega)]
      · rcases Nat.eq_zero_or_pos (extractPack (pyStr (getCell r tc))) with hz | hpos
        · refine Or.inl ?_
          simp only [unitPriceCalc]
          rw [if_neg (by omega)]
        · refine Or.inr ⟨f.divN (extractPack (pyStr (getCell r tc))), ?_, ?_⟩
          · simp only [unitPriceCalc]
            rw [if_pos hpos]
          · apply toQ_nonneg
            have hnum := clean_num_nonneg _ f (hp r hr) hc
            simpa [Frac.divN] using hnum

/-- C9 witness: a one-row table with an ordinary price cell has a
well-defined non-negative unit price. -/
theorem c9_witness :
    ((⟨"T", some ⟨999, 100⟩, none, none, none, none, 1,
        some ⟨999, 100⟩⟩ : NormalizedRow).packCount = 0 →
      (⟨"T", some ⟨999, 100⟩, none, none, none, none, 1,
        some ⟨999, 100⟩⟩ : NormalizedRow).unitPrice = none) ∧
    ((⟨"T", some ⟨999, 100⟩, none, none, none, none, 1,
        some ⟨999, 100⟩⟩ : NormalizedRow).unitPrice = none ∨
      ∃ f, (⟨"T", some ⟨999, 100⟩, none, none, none, none, 1,
        some ⟨999, 100⟩⟩ : NormalizedRow).unitPrice = some f ∧ 0 ≤ toQ f) :=
  c9_unit_price ["Title", "Price"] [[("Title", Cell.str "T"), ("Price", Cell.str "9.99")]]
    [⟨"T", some ⟨999, 100⟩, none, none, none, none, 1, some ⟨999, 100⟩⟩]
    ⟨"T", some ⟨999, 100⟩, none, none, none, none, 1, some ⟨999, 100⟩⟩
    (by decide) (by simp) (by decide)
